import Mathlib

/-!
Verification of the tier-orchestrator core of the remember-mcp repository.

This file gives a shallow embedding of the orchestrator logic in
`src/remember/system.py` and `src/remember/scheduler.py`:

* the archival migrator `archive_old_memories` (system.py lines 234-390),
* the statistics report `get_stats` (system.py lines 418-496),
* the recall operation `recall_from_archive` (system.py lines 392-416),
* the startup registry rebuild `_load_archive_index` (system.py lines 82-100),
* the hybrid query merge `query` / `_query_archives` (system.py lines 131-232),
* the scheduler counters `_run_archival` / `run_now` (scheduler.py lines 81-119),
* a two-task interleaving model of concurrent migrations.

External collaborators (the OpenMemory active store, the memvid codec, the
clock, the filesystem and Python's string hash) are modelled as explicit
function arguments: the embedding quantifies over their behaviour.  Python
floats are modelled as rationals; machine timestamps as integers.
-/

namespace Remember

/-- Tier of origin of a query result (`MemoryLocation` in types.py). -/
inductive MemoryLocation where
  | active
  | archive
deriving Repr, DecidableEq

/-- A row of the active store's `memories` table, as read by the SQL in
`archive_old_memories`: primary-key id, optional `user_id` (NULL allowed),
`content`, `created_at` in milliseconds, and the float `salience`. -/
structure Memory where
  id : Nat
  userId : Option String
  content : String
  createdAt : Int
  salience : ℚ
deriving Repr, DecidableEq

/-- One archive-segment descriptor as stored in `self.archive_index`:
`{"file": ..., "index": ..., "created_at": ...}` (system.py lines 96-100
and 349-353). -/
structure ArchiveEntry where
  file : String
  sideIndex : String
  createdAt : Int
deriving Repr, DecidableEq

/-- `self.archive_index : Dict[str, Dict[str, Any]]` mapping user id to a
timestamp-keyed dict of entries.  Python dicts preserve insertion order, so
each dict is modelled as an insertion-ordered association list. -/
abbrev ArchiveIndex := List (String × List (String × ArchiveEntry))

/-- Ordered-dict lookup: `d.get(k)`. -/
def lookupAssoc {β : Type} (l : List (String × β)) (k : String) : Option β :=
  (l.find? (fun p => p.1 == k)).map (fun p => p.2)

/-- Ordered-dict assignment `d[k] = v`: replaces in place when the key is
present, otherwise appends (Python dict insertion-order semantics). -/
def setAssoc {β : Type} (l : List (String × β)) (k : String) (v : β) : List (String × β) :=
  if l.any (fun p => p.1 == k) then
    l.map (fun p => if p.1 == k then (k, v) else p)
  else
    l ++ [(k, v)]

/-- `ArchiveStats` dataclass (types.py lines 30-36).  The compression-ratio
field is a Python float; modelled as a rational. -/
structure ArchiveStats where
  archivedCount : Nat
  activeRemaining : Nat
  archiveSizeBytes : Nat
  compressionRat : ℚ
deriving Repr, DecidableEq

/-- `SystemStats` dataclass (types.py lines 39-49). -/
structure SystemStats where
  activeCount : Nat
  archiveCount : Nat
  totalMemories : Nat
  activeDbSize : Nat
  archiveSize : Nat
  totalSize : Nat
  compressionRat : ℚ
  avgSalience : ℚ
deriving Repr, DecidableEq

/-- The mutable orchestrator state relevant to the claims: the active
store's `memories` table and the in-memory archive registry. -/
structure SysState where
  memories : List Memory
  archiveIndex : ArchiveIndex
deriving Repr, DecidableEq

/-- Constructor configuration of `RememberSystem` (system.py lines 46-68). -/
structure Config where
  archiveThresholdDays : Int
  archiveMinSalience : ℚ
  archiveDir : String
deriving Repr, DecidableEq

/-- Python's `x or default` for an optional int parameter: `None` and `0`
are falsy, so both are replaced by the default (system.py line 251). -/
def coalesceInt (x : Option Int) (d : Int) : Int :=
  match x with
  | none => d
  | some v => if v = 0 then d else v

/-- Python's `x or default` for an optional float parameter: `None` and
`0.0` are falsy (system.py line 252). -/
def coalesceRat (x : Option ℚ) (d : ℚ) : ℚ :=
  match x with
  | none => d
  | some v => if v = 0 then d else v

/-- Truthiness of the optional `user_id` argument (`if user_id:`): `None`
and the empty string are falsy. -/
def uTruthy (u : Option String) : Bool :=
  match u with
  | some s => !(s == "")
  | none => false

/-- `user_id or 'default'` in the archive filename (system.py line 309). -/
def ownerName (u : Option String) : String :=
  match u with
  | some s => if s == "" then "default" else s
  | none => "default"

/-- Row filter of the user-scoped SQL queries: when `user_id` is truthy the
query has `WHERE user_id = ?` (NULL user ids never match); otherwise the
query is unscoped. -/
def sqlUserMatch (u : Option String) (m : Memory) : Bool :=
  match u with
  | some s => if s == "" then true else m.userId == some s
  | none => true

/-- `SELECT COUNT(*) FROM memories [WHERE user_id = ?]` (system.py
lines 287-298, 324-335, 371-383). -/
def countActive (mems : List Memory) (u : Option String) : Nat :=
  (mems.filter (sqlUserMatch u)).length

/-- The WHERE clause of the eligibility query (system.py lines 259-279):
`created_at <= age_threshold_ms AND salience < min_salience`, optionally
scoped to a user. -/
def eligPred (thrMs : Int) (sal : ℚ) (u : Option String) (m : Memory) : Bool :=
  sqlUserMatch u m && decide (m.createdAt ≤ thrMs) && decide (m.salience < sal)

/-- `ORDER BY salience ASC, created_at ASC` as a boolean comparison. -/
def eligMemLE (a b : Memory) : Bool :=
  decide (a.salience < b.salience) ||
    (a.salience == b.salience && decide (a.createdAt ≤ b.createdAt))

/-- The eligible-record set of one migration call: the coalesced thresholds
(system.py lines 251-255), the WHERE filter and the ORDER BY
(system.py lines 257-282). -/
def eligibleOf (cfg : Config) (nowMs : Int) (ageDays : Option Int) (minSal : Option ℚ)
    (u : Option String) (mems : List Memory) : List Memory :=
  let thrMs := nowMs - coalesceInt ageDays cfg.archiveThresholdDays * 86400000
  let sal := coalesceRat minSal cfg.archiveMinSalience
  List.insertionSort (fun a b => eligMemLE a b = true) (mems.filter (eligPred thrMs sal u))

/-- Observable side effects of a migration, in the order the source
performs them: registry insertion (system.py lines 344-353) and active
store deletion (system.py lines 355-364). -/
inductive MigEvent where
  | register (owner : String) (ts : Int)
  | delete (ids : List Nat)
deriving Repr, DecidableEq

/-- Embedding of `archive_old_memories` (system.py lines 234-390).

Arguments: the configuration, the memvid codec as a fallible function from
the chunk list to the encoded segment size in bytes (`MemvidEncoder` is
external; a raised exception is the `.error` case), the clock readings
`int(time.time() * 1000)` and `int(time.time())`, the three call
parameters, and the current state.  Returns the new state, the
`ArchiveStats` result and the trace of registry/deletion effects.

The source catches a codec exception and returns a normal zero-count
result (system.py lines 318-342); it only updates the archive index when
`user_id` is truthy (system.py line 345). -/
def archiveOldMemories (cfg : Config) (encode : List String → Except String Nat)
    (nowMs nowSec : Int) (ageDays : Option Int) (minSal : Option ℚ)
    (userId : Option String) (st : SysState) :
    SysState × ArchiveStats × List MigEvent :=
  let eligible := eligibleOf cfg nowMs ageDays minSal userId st.memories
  if eligible.isEmpty then
    (st, ⟨0, countActive st.memories userId, 0, 1⟩, [])
  else
    match encode (eligible.map (fun m => m.content)) with
    | .error _ =>
        (st, ⟨0, countActive st.memories userId, 0, 1⟩, [])
    | .ok archiveSize =>
        let stem := "user_" ++ ownerName userId ++ "_" ++ toString nowSec
        let entry : ArchiveEntry :=
          ⟨cfg.archiveDir ++ stem ++ ".mp4", cfg.archiveDir ++ stem ++ ".json", nowSec⟩
        let reg : ArchiveIndex × List MigEvent :=
          match userId with
          | some s =>
              if s == "" then (st.archiveIndex, [])
              else
                (setAssoc st.archiveIndex s
                   (setAssoc ((lookupAssoc st.archiveIndex s).getD []) (toString nowSec) entry),
                 [MigEvent.register s nowSec])
          | none => (st.archiveIndex, [])
        let ids := eligible.map (fun m => m.id)
        let mems' := st.memories.filter (fun m => !(ids.contains m.id))
        let originalSize := (eligible.map (fun m => m.content.length)).sum
        let ratioQ : ℚ := if 0 < archiveSize then (originalSize : ℚ) / (archiveSize : ℚ) else 1
        (⟨mems', reg.1⟩,
         ⟨eligible.length, countActive mems' userId, archiveSize, ratioQ⟩,
         reg.2 ++ [MigEvent.delete ids])

/-- Embedding of `get_stats` (system.py lines 418-496).  The filesystem is
the oracle `fileSize` (`None` models a missing file; the `except: pass`
around `stat()` makes a missing archive file contribute zero bytes). -/
def getStats (fileSize : String → Option Nat) (activeDbPath : String)
    (st : SysState) (userId : Option String) : SystemStats :=
  let relevant := st.memories.filter (sqlUserMatch userId)
  let activeCount := relevant.length
  let avgSal : ℚ :=
    if relevant.length = 0 then 0
    else ((relevant.map (fun m => m.salience)).sum) / (relevant.length : ℚ)
  let userDicts : List (List (String × ArchiveEntry)) :=
    if uTruthy userId then
      [((lookupAssoc st.archiveIndex ((userId).getD "")).getD [])]
    else
      st.archiveIndex.map (fun p => p.2)
  let archiveCount := (userDicts.map (fun d => d.length)).sum
  let archiveSize :=
    ((userDicts.map (fun d => (d.map (fun p => (fileSize p.2.file).getD 0)).sum)).sum)
  let activeDbSize := (fileSize activeDbPath).getD 0
  let totalSize := activeDbSize + archiveSize
  let ratioQ : ℚ := if 0 < activeDbSize then (totalSize : ℚ) / (activeDbSize : ℚ) else 1
  ⟨activeCount, archiveCount, activeCount + archiveCount,
   activeDbSize, archiveSize, totalSize, ratioQ, avgSal⟩

/-- What a recall call does to the active tier. -/
inductive RecallOutcome where
  | inserted (content : String) (userId : Option String) (recalledFrom : String)
  | notFound
deriving Repr, DecidableEq

/-- Embedding of `recall_from_archive` (system.py lines 392-416): the body
is a single `add_memory` call with `metadata={"recalled_from": archive_file}`.
The archive index is passed as an argument to record that the source never
consults it — there is no lookup and no error path in the function. -/
def recallFromArchive (_idx : ArchiveIndex) (archiveFile content : String)
    (userId : Option String) : RecallOutcome :=
  RecallOutcome.inserted content userId archiveFile

/-- Python's `str.split("_")` on a filename stem, at the character level:
splits at every separator occurrence and keeps empty pieces. -/
def splitOnChar (sep : Char) : List Char → List (List Char)
  | [] => [[]]
  | c :: cs =>
      let r := splitOnChar sep cs
      if c = sep then [] :: r
      else (c :: r.headD []) :: r.tail

/-- Strip leading and trailing whitespace, as `int(s)` does before
parsing. -/
def stripWs (l : List Char) : List Char :=
  ((l.dropWhile Char.isWhitespace).reverse.dropWhile Char.isWhitespace).reverse

/-- Python's `int(s)` on a string (as a character list): optional
surrounding whitespace, an optional sign, then at least one decimal digit;
anything else raises `ValueError` (modelled as `none`). -/
def pyParseInt (s : List Char) : Option Int :=
  let t := stripWs s
  let core : Int × List Char :=
    match t with
    | '-' :: rest => (-1, rest)
    | '+' :: rest => (1, rest)
    | _ => (1, t)
  let digits := core.2
  if 0 < digits.length && digits.all (fun c => c.isDigit) then
    some (core.1 * (digits.foldl (fun n c => n * 10 + (c.toNat - 48)) 0 : Nat))
  else
    none

/-- Embedding of `_load_archive_index` (system.py lines 82-100): the stems
of the `*.mp4` files found in the archive directory are processed in order
(stems given as character lists); a stem is indexed when it starts with
`user_` and splits into at least three parts, in which case
`int(parts[2])` is evaluated — a non-numeric third part raises
`ValueError` (the `.error` case), aborting the scan. -/
def loadArchiveIndex (stems : List (List Char)) : Except String ArchiveIndex :=
  stems.foldlM
    (fun idx stem =>
      if List.isPrefixOf "user_".data stem then
        let parts := splitOnChar '_' stem
        if 3 ≤ parts.length then
          let uid := String.mk (parts.getD 1 [])
          let ts := parts.getD 2 []
          match pyParseInt ts with
          | none => .error ("invalid literal for int: " ++ String.mk ts)
          | some tsInt =>
              .ok (setAssoc idx uid
                    (setAssoc ((lookupAssoc idx uid).getD []) (String.mk ts)
                      ⟨String.mk stem ++ ".mp4", String.mk stem ++ ".json", tsInt⟩))
        else .ok idx
      else .ok idx)
    []

/-- One result of the external active store's `query` (the
`MemoryResult` shape consumed in system.py lines 163-173). -/
structure ActiveResult where
  id : String
  content : String
  score : ℚ
  sectors : List String
  primarySector : String
  salience : ℚ
  lastSeenAt : Int
deriving Repr, DecidableEq

/-- `HybridMemoryResult` dataclass (types.py lines 15-27). -/
structure HybridMemoryResult where
  id : String
  content : String
  score : ℚ
  location : MemoryLocation
  sectors : List String
  primarySector : String
  salience : ℚ
  lastSeenAt : Int
  archivedAt : Option Int
  archiveFile : Option String
deriving Repr, DecidableEq

/-- Mapping of an active-store result to a hybrid result (system.py
lines 163-173). -/
def toHybridActive (m : ActiveResult) : HybridMemoryResult :=
  ⟨m.id, m.content, m.score, MemoryLocation.active, m.sectors, m.primarySector,
   m.salience, m.lastSeenAt, none, none⟩

/-- Mapping of one archive hit `(chunk, score)` to a hybrid result
(system.py lines 214-226): score is multiplied by the 0.8 archive penalty,
salience is zero, the sector collapses to the generic `semantic` label, and
the id embeds `hash(chunk)` (Python's randomized string hash, an oracle). -/
def archiveHitToHybrid (ts : String) (info : ArchiveEntry) (hashStr : String → Int)
    (hit : String × ℚ) : HybridMemoryResult :=
  ⟨"archive_" ++ ts ++ "_" ++ toString (hashStr hit.1), hit.1, hit.2 * (mkRat 8 10),
   MemoryLocation.archive, ["semantic"], "semantic", 0, info.createdAt,
   some info.createdAt, some info.file⟩

/-- Embedding of `_query_archives` (system.py lines 190-232): every segment
of the user's dict is searched through the external retriever oracle; a
retriever exception skips that segment (`except ... continue`). -/
def queryArchiveResults (retrieve : String → String → String → Nat → Except String (List (String × ℚ)))
    (hashStr : String → Int) (userArchives : List (String × ArchiveEntry))
    (q : String) (k : Nat) : List HybridMemoryResult :=
  (userArchives.map (fun p =>
    match retrieve p.2.file p.2.sideIndex q k with
    | .error _ => []
    | .ok hits => hits.map (archiveHitToHybrid p.1 p.2 hashStr))).flatten

/-- The archive-tier contribution to a query (system.py lines 175-182):
present only when `include_archive` holds and the user id is a key of the
archive index; `None in self.archive_index` is false. -/
def archivePartOf (retrieve : String → String → String → Nat → Except String (List (String × ℚ)))
    (hashStr : String → Int) (idx : ArchiveIndex) (q : String) (k : Nat)
    (userId : Option String) (includeArchive : Bool) : List HybridMemoryResult :=
  match userId with
  | some u =>
      if includeArchive && (lookupAssoc idx u).isSome then
        queryArchiveResults retrieve hashStr ((lookupAssoc idx u).getD []) q k
      else []
  | none => []

/-- The list `results` of `query` just before the sort (system.py
lines 152-183): active results first, then the archive results. -/
def mergedResults (activeResults : List ActiveResult)
    (retrieve : String → String → String → Nat → Except String (List (String × ℚ)))
    (hashStr : String → Int) (idx : ArchiveIndex) (q : String) (k : Nat)
    (userId : Option String) (includeArchive : Bool) : List HybridMemoryResult :=
  activeResults.map toHybridActive ++
    archivePartOf retrieve hashStr idx q k userId includeArchive

/-- The comparison of `results.sort(key=lambda x: x.score, reverse=True)`:
a stable sort that puts higher unified scores first. -/
def scoreDescLE (a b : HybridMemoryResult) : Bool :=
  decide (b.score ≤ a.score)

/-- Embedding of `query` (system.py lines 131-188): merge, stable-sort
descending by score, truncate to `k`.  Python's `list.sort` is stable;
`List.mergeSort` is the stable sort of the Lean library. -/
def queryHybrid (activeResults : List ActiveResult)
    (retrieve : String → String → String → Nat → Except String (List (String × ℚ)))
    (hashStr : String → Int) (idx : ArchiveIndex) (q : String) (k : Nat)
    (userId : Option String) (includeArchive : Bool) : List HybridMemoryResult :=
  ((mergedResults activeResults retrieve hashStr idx q k userId includeArchive).mergeSort
     scoreDescLE).take k

/-- Scheduler state (scheduler.py lines 35-41): the `enabled` and `running`
flags, the last-run timestamp in milliseconds and the lifetime archived
count. -/
structure SchedState where
  enabled : Bool
  running : Bool
  lastRun : Option Int
  totalArchived : Nat
deriving Repr, DecidableEq

/-- Embedding of `_run_archival` (scheduler.py lines 81-114): when
`enabled` is false the method returns at once without calling the
migrator; otherwise it calls `archive_old_memories` (outcome given as an
oracle — `.error` is a raised exception, caught and logged) and on success
sets `last_run` and adds to `total_archived`.  The boolean of the result
records whether the migrator was invoked. -/
def runArchivalStep (s : SchedState) (nowMs : Int)
    (outcome : Except String ArchiveStats) : SchedState × Bool :=
  if !s.enabled then (s, false)
  else
    match outcome with
    | .error _ => (s, true)
    | .ok stats =>
        ({ s with lastRun := some nowMs,
                  totalArchived := s.totalArchived + stats.archivedCount }, true)

/-- `run_now` (scheduler.py lines 116-119): its body is exactly a call to
`_run_archival`. -/
def runNow (s : SchedState) (nowMs : Int) (outcome : Except String ArchiveStats) :
    SchedState × Bool :=
  runArchivalStep s nowMs outcome

/-- The archival part of one background-loop iteration (scheduler.py
line 73): the loop body also just calls `_run_archival`. -/
def loopArchival (s : SchedState) (nowMs : Int) (outcome : Except String ArchiveStats) :
    SchedState × Bool :=
  runArchivalStep s nowMs outcome

/-- One immutable archive segment, recorded with the ids of the active
records whose contents were encoded into it. -/
structure Segment where
  owner : String
  ts : Int
  memberIds : List Nat
deriving Repr, DecidableEq

/-- Progress of one in-flight `archive_old_memories` call, at the
granularity of its `await` points: before the eligibility SELECT, after
the SELECT with the captured snapshot, and finished. -/
inductive TaskPhase where
  | ready
  | selected (elig : List Memory)
  | done
deriving Repr, DecidableEq

/-- One concurrent migration invocation and its call parameters. -/
structure MigTask where
  phase : TaskPhase
  userId : Option String
  nowMs : Int
  nowSec : Int
  ageDays : Option Int
  minSal : Option ℚ
deriving Repr, DecidableEq

/-- Shared state seen by two concurrent migration calls.  The code takes
no lock around `archive_old_memories` (system.py lines 234-364), and the
scheduler's `run_now` awaits it directly (scheduler.py lines 116-119), so
the `await` boundary after the eligibility SELECT lets another call run
its own SELECT before the first call's DELETE commits. -/
structure World where
  cfg : Config
  memories : List Memory
  segments : List Segment
  taskA : MigTask
  taskB : MigTask
deriving Repr, DecidableEq

/-- Replace the chosen task. -/
def setTask (w : World) (pickA : Bool) (t : MigTask) : World :=
  if pickA then { w with taskA := t } else { w with taskB := t }

/-- One scheduler step of the chosen task: a `ready` task runs its
eligibility SELECT against the current shared store (an empty result ends
the call with no effect); a `selected` task encodes its captured snapshot
into a new segment and deletes exactly the captured ids (system.py
lines 307-364, encode assumed to succeed). -/
def migStep (w : World) (pickA : Bool) : World :=
  let t := if pickA then w.taskA else w.taskB
  match t.phase with
  | .ready =>
      let elig := eligibleOf w.cfg t.nowMs t.ageDays t.minSal t.userId w.memories
      setTask w pickA
        { t with phase := if elig.isEmpty then TaskPhase.done else TaskPhase.selected elig }
  | .selected elig =>
      let ids := elig.map (fun m => m.id)
      let w' := setTask w pickA { t with phase := TaskPhase.done }
      { w' with
          segments := w.segments ++ [⟨ownerName t.userId, t.nowSec, ids⟩],
          memories := w.memories.filter (fun m => !(ids.contains m.id)) }
  | .done => w

/-- Run an interleaving: each list element picks which task advances. -/
def migRun (sched : List Bool) (w : World) : World :=
  sched.foldl migStep w

/-- In how many archive segments a record id occurs. -/
def segmentsContaining (w : World) (i : Nat) : Nat :=
  (w.segments.filter (fun s => s.memberIds.contains i)).length

/-! Concrete fixtures used by witnesses, counterexamples and the scenario
claim.  `demoCfg` mirrors the configuration of the repository's own
`test_complete.py` (`archive_threshold_days=0`, so that a zero age
threshold is effective — cf. the falsy-or coalescing). -/

/-- Configuration with a zero-day archive threshold, as in the repo's
`test_complete.py`. -/
def demoCfg : Config := ⟨0, mkRat 1 5, ""⟩

/-- A single low-salience record owned by `u`. -/
def demoSt : SysState := ⟨[⟨1, some "u", "hello", 10, mkRat 1 10⟩], []⟩

/-- A codec that always fails (a memvid exception). -/
def encodeFail : List String → Except String Nat := fun _ => .error "boom"

/-- A codec that always succeeds, producing a 50-byte segment. -/
def encodeOk50 : List String → Except String Nat := fun _ => .ok 50

/-- A single low-salience record with no owner (`user_id` NULL). -/
def noOwnerSt : SysState := ⟨[⟨1, none, "c", 10, mkRat 1 10⟩], []⟩

/-- The five records of the spec's §8 scenario, with salience values
0.8, 0.3, 0.7, 0.2, 0.9 and owner `u`. -/
def scenarioMems : List Memory :=
  [⟨1, some "u", "m1", 1, mkRat 8 10⟩,
   ⟨2, some "u", "m2", 2, mkRat 3 10⟩,
   ⟨3, some "u", "m3", 3, mkRat 7 10⟩,
   ⟨4, some "u", "m4", 4, mkRat 2 10⟩,
   ⟨5, some "u", "m5", 5, mkRat 9 10⟩]

/-- The §8 scenario migration: `min_salience=0.5`, `age_days=0`, owner
`u`, on the five-record store. -/
def scenarioRun : SysState × ArchiveStats × List MigEvent :=
  archiveOldMemories demoCfg (fun _ => .ok 100) 1000 77 (some 0) (some (mkRat 5 10))
    (some "u") ⟨scenarioMems, []⟩

/-- Initial shared state for the concurrency analysis: one eligible
record, two pending migration calls on the same owner. -/
def demoWorld : World :=
  { cfg := demoCfg,
    memories := [⟨1, some "u", "c", 10, mkRat 1 10⟩],
    segments := [],
    taskA := ⟨TaskPhase.ready, some "u", 1000, 100, some 0, some (mkRat 1 2)⟩,
    taskB := ⟨TaskPhase.ready, some "u", 1000, 200, some 0, some (mkRat 1 2)⟩ }

/-! ## Helper lemmas -/

/-- Dict assignment followed by lookup of the same key yields the
assigned value. -/
theorem lookupAssoc_setAssoc_self {β : Type} (l : List (String × β)) (k : String) (v : β) :
    lookupAssoc (setAssoc l k v) k = some v := by
  unfold setAssoc
  by_cases h : l.any (fun p => p.1 == k) = true
  · rw [if_pos h]
    induction l with
    | nil => simp at h
    | cons p t ih =>
        by_cases hp : p.1 == k
        · simp [lookupAssoc, List.find?, hp]
        · have ht : t.any (fun p => p.1 == k) = true := by
            simpa [List.any_cons, hp] using h
          simpa [lookupAssoc, List.find?, hp] using ih ht
  · rw [if_neg h]
    have hnone : l.find? (fun p => p.1 == k) = none := by
      rw [List.find?_eq_none]
      intro x hx hbeq
      exact h (List.any_of_mem hx hbeq)
    simp [lookupAssoc, List.find?_append, hnone, List.find?]

/-- A member of the eligible set is a member of the store and satisfies
the WHERE clause. -/
theorem mem_eligibleOf {cfg : Config} {nowMs : Int} {a : Option Int} {s : Option ℚ}
    {u : Option String} {mems : List Memory} {m : Memory}
    (h : m ∈ eligibleOf cfg nowMs a s u mems) :
    m ∈ mems ∧ eligPred (nowMs - coalesceInt a cfg.archiveThresholdDays * 86400000)
      (coalesceRat s cfg.archiveMinSalience) u m = true := by
  have hperm := List.perm_insertionSort (fun a b => eligMemLE a b = true)
    (mems.filter (eligPred (nowMs - coalesceInt a cfg.archiveThresholdDays * 86400000)
      (coalesceRat s cfg.archiveMinSalience) u))
  exact List.mem_filter.mp (hperm.mem_iff.mp h)

/-! Helper lemmas for the hybrid-query claim. -/


theorem scoreDescLE_trans (a b c : HybridMemoryResult)
    (h1 : scoreDescLE a b = true) (h2 : scoreDescLE b c = true) : scoreDescLE a c = true := by
  simp only [scoreDescLE, decide_eq_true_eq] at *
  exact le_trans h2 h1

theorem scoreDescLE_total (a b : HybridMemoryResult) :
    (scoreDescLE a b || scoreDescLE b a) = true := by
  simp only [scoreDescLE, Bool.or_eq_true, decide_eq_true_eq]
  exact le_total b.score a.score

theorem enumLE_scoreDesc_iff (p q : ℕ × HybridMemoryResult) :
    List.enumLE scoreDescLE p q = true ↔
      (q.2.score < p.2.score ∨ (p.2.score = q.2.score ∧ p.1 ≤ q.1)) := by
  simp only [List.enumLE, scoreDescLE]
  split_ifs with h1 h2
  · simp only [decide_eq_true_eq] at h1 h2 ⊢
    constructor
    · intro h
      exact Or.inr ⟨le_antisymm h2 h1, h⟩
    · rintro (h | ⟨heq, hij⟩)
      · exact absurd h2 (not_le.mpr h)
      · exact hij
  · simp only [decide_eq_true_eq] at h1 h2
    constructor
    · intro _
      exact Or.inl (lt_of_le_not_le h1 h2)
    · intro _
      rfl
  · simp only [decide_eq_true_eq] at h1
    constructor
    · intro h
      exact absurd h (by simp)
    · rintro (h | ⟨heq, hij⟩)
      · exact absurd (le_of_lt h) h1
      · exact absurd (le_of_eq heq.symm) h1

theorem enumLE_scoreDesc_trans (a b c : ℕ × HybridMemoryResult)
    (h1 : List.enumLE scoreDescLE a b = true) (h2 : List.enumLE scoreDescLE b c = true) :
    List.enumLE scoreDescLE a c = true := by
  rw [enumLE_scoreDesc_iff] at *
  rcases h1 with h1 | ⟨e1, i1⟩ <;> rcases h2 with h2 | ⟨e2, i2⟩
  · exact Or.inl (lt_trans h2 h1)
  · exact Or.inl (e2 ▸ h1)
  · exact Or.inl (e1 ▸ h2)
  · exact Or.inr ⟨e1.trans e2, le_trans i1 i2⟩

theorem enumLE_scoreDesc_total (a b : ℕ × HybridMemoryResult) :
    (List.enumLE scoreDescLE a b || List.enumLE scoreDescLE b a) = true := by
  rw [Bool.or_eq_true, enumLE_scoreDesc_iff, enumLE_scoreDesc_iff]
  rcases lt_trichotomy a.2.score b.2.score with h | h | h
  · exact Or.inr (Or.inl h)
  · rcases Nat.le_total a.1 b.1 with hij | hij
    · exact Or.inl (Or.inr ⟨h, hij⟩)
    · exact Or.inr (Or.inr ⟨h.symm, hij⟩)
  · exact Or.inl (Or.inl h)

theorem location_of_mem_activePart {l : List ActiveResult} {r : HybridMemoryResult}
    (h : r ∈ l.map toHybridActive) : r.location = MemoryLocation.active := by
  rcases List.mem_map.mp h with ⟨a, _, rfl⟩
  rfl

theorem location_of_mem_queryArchiveResults
    {retrieve : String → String → String → Nat → Except String (List (String × ℚ))}
    {hashStr : String → Int} {ua : List (String × ArchiveEntry)} {q : String} {k : Nat}
    {r : HybridMemoryResult}
    (h : r ∈ queryArchiveResults retrieve hashStr ua q k) :
    r.location = MemoryLocation.archive := by
  unfold queryArchiveResults at h
  rcases List.mem_flatten.mp h with ⟨s, hs, hr⟩
  rcases List.mem_map.mp hs with ⟨p, _, rfl⟩
  rcases hm : retrieve p.2.file p.2.sideIndex q k with e | hits
  · rw [hm] at hr
    simp at hr
  · rw [hm] at hr
    rcases List.mem_map.mp hr with ⟨hit, _, rfl⟩
    rfl

theorem location_of_mem_archivePartOf
    {retrieve : String → String → String → Nat → Except String (List (String × ℚ))}
    {hashStr : String → Int} {idx : ArchiveIndex} {q : String} {k : Nat}
    {userId : Option String} {includeArchive : Bool} {r : HybridMemoryResult}
    (h : r ∈ archivePartOf retrieve hashStr idx q k userId includeArchive) :
    r.location = MemoryLocation.archive := by
  rcases userId with _ | u
  · simp [archivePartOf] at h
  · simp only [archivePartOf] at h
    by_cases hc : (includeArchive && (lookupAssoc idx u).isSome) = true
    · rw [if_pos hc] at h
      exact location_of_mem_queryArchiveResults h
    · rw [if_neg hc] at h
      simp at h

/-! ## Claim theorems -/

/-- C1: for every migration call with a non-empty eligible set, if the
codec's encode step fails, the migration performs no deletion and adds no
registry entry — the state is returned unchanged, the effect trace is
empty, and the active-store count after the call equals the count
before. -/
theorem c1_codec_failure_preserves_active_store
    (cfg : Config) (encode : List String → Except String Nat)
    (nowMs nowSec : Int) (ageDays : Option Int) (minSal : Option ℚ)
    (u : Option String) (st : SysState) (e : String)
    (helig : eligibleOf cfg nowMs ageDays minSal u st.memories ≠ [])
    (henc : encode ((eligibleOf cfg nowMs ageDays minSal u st.memories).map
      (fun m => m.content)) = .error e) :
    (archiveOldMemories cfg encode nowMs nowSec ageDays minSal u st).1 = st
    ∧ (archiveOldMemories cfg encode nowMs nowSec ageDays minSal u st).2.2 = []
    ∧ countActive (archiveOldMemories cfg encode nowMs nowSec ageDays minSal u st).1.memories u
        = countActive st.memories u := by
  have hne : (eligibleOf cfg nowMs ageDays minSal u st.memories).isEmpty = false := by
    rcases h : (eligibleOf cfg nowMs ageDays minSal u st.memories).isEmpty with _ | _
    · rfl
    · exact absurd (List.isEmpty_iff.mp h) helig
  simp only [archiveOldMemories, hne, henc, Bool.false_eq_true, if_false]
  exact ⟨by trivial, by trivial, by trivial⟩

/-- Witness for C1: the concrete one-record store with a failing codec. -/
theorem c1_codec_failure_preserves_active_store_witness :
    (eligibleOf demoCfg 1000 (some 0) (some (mkRat 1 2)) (some "u") demoSt.memories ≠ []
      ∧ encodeFail ((eligibleOf demoCfg 1000 (some 0) (some (mkRat 1 2)) (some "u")
          demoSt.memories).map (fun m => m.content)) = .error "boom")
    ∧ (archiveOldMemories demoCfg encodeFail 1000 99 (some 0) (some (mkRat 1 2))
        (some "u") demoSt).1 = demoSt :=
  ⟨⟨by decide, by rfl⟩,
   (c1_codec_failure_preserves_active_store demoCfg encodeFail 1000 99 (some 0)
     (some (mkRat 1 2)) (some "u") demoSt "boom" (by decide) (by rfl)).1⟩

/-- C3 counterexample: at a concrete state with one eligible record and a
failing codec, `archive_old_memories` returns the ordinary zero-count
`ArchiveStats` value — the same shape as a successful empty migration —
instead of surfacing an `EncodingFailure` error: the exception is caught
inside the function (system.py lines 318-342) and no error reaches the
caller. -/
theorem c3_counterexample_failure_returns_normal_result :
    archiveOldMemories demoCfg encodeFail 1000 99 (some 0) (some (mkRat 1 2))
      (some "u") demoSt = (demoSt, ⟨0, 1, 0, 1⟩, []) := by decide

/-- C3 amended: whenever the codec fails during a migration that had
eligible records, the operation catches the exception and returns the
normal zero-count result with a fresh active count (no error is surfaced
to the caller). -/
theorem c3_failure_caught_returns_zero_stats
    (cfg : Config) (encode : List String → Except String Nat)
    (nowMs nowSec : Int) (ageDays : Option Int) (minSal : Option ℚ)
    (u : Option String) (st : SysState) (e : String)
    (helig : eligibleOf cfg nowMs ageDays minSal u st.memories ≠ [])
    (henc : encode ((eligibleOf cfg nowMs ageDays minSal u st.memories).map
      (fun m => m.content)) = .error e) :
    (archiveOldMemories cfg encode nowMs nowSec ageDays minSal u st).2.1
      = ⟨0, countActive st.memories u, 0, 1⟩ := by
  have hne : (eligibleOf cfg nowMs ageDays minSal u st.memories).isEmpty = false := by
    rcases h : (eligibleOf cfg nowMs ageDays minSal u st.memories).isEmpty with _ | _
    · rfl
    · exact absurd (List.isEmpty_iff.mp h) helig
  simp only [archiveOldMemories, hne, henc, Bool.false_eq_true, if_false]

/-- Witness for the amended C3. -/
theorem c3_failure_caught_returns_zero_stats_witness :
    (eligibleOf demoCfg 1000 (some 0) (some (mkRat 1 2)) (some "u") demoSt.memories ≠ []
      ∧ encodeFail ((eligibleOf demoCfg 1000 (some 0) (some (mkRat 1 2)) (some "u")
          demoSt.memories).map (fun m => m.content)) = .error "boom")
    ∧ (archiveOldMemories demoCfg encodeFail 1000 99 (some 0) (some (mkRat 1 2))
        (some "u") demoSt).2.1 = ⟨0, 1, 0, 1⟩ :=
  ⟨⟨by decide, by rfl⟩,
   c3_failure_caught_returns_zero_stats demoCfg encodeFail 1000 99 (some 0)
     (some (mkRat 1 2)) (some "u") demoSt "boom" (by decide) (by rfl)⟩

/-- C2 counterexample: a successful migration invoked with no owner
deletes the migrated id from the active store but registers nothing — the
registry update is guarded by `if user_id:` (system.py line 345), so the
archive index stays empty and the effect trace contains a deletion but no
registration. -/
theorem c2_counterexample_no_owner_not_registered :
    (archiveOldMemories demoCfg encodeOk50 1000 99 (some 0) (some (mkRat 1 2))
        none noOwnerSt).1.archiveIndex = []
    ∧ (archiveOldMemories demoCfg encodeOk50 1000 99 (some 0) (some (mkRat 1 2))
        none noOwnerSt).2.2 = [MigEvent.delete [1]]
    ∧ (archiveOldMemories demoCfg encodeOk50 1000 99 (some 0) (some (mkRat 1 2))
        none noOwnerSt).1.memories = [] := by
  refine ⟨by decide, by decide, by decide⟩

/-- C2 amended: for every successful migration of a non-empty eligible set
invoked with a truthy owner, the new segment's descriptor is registered in
the archive registry strictly before the migrated ids are deleted from the
active store, and both effects are visible in the final state; when no
owner is given the segment file is named with owner `default` but no
registry entry is added, while the deletion still happens. -/
theorem c2_register_before_delete_with_owner
    (cfg : Config) (encode : List String → Except String Nat)
    (nowMs nowSec : Int) (ageDays : Option Int) (minSal : Option ℚ)
    (s : String) (st : SysState) (sz : Nat)
    (hs : s ≠ "")
    (helig : eligibleOf cfg nowMs ageDays minSal (some s) st.memories ≠ [])
    (henc : encode ((eligibleOf cfg nowMs ageDays minSal (some s) st.memories).map
      (fun m => m.content)) = .ok sz) :
    (archiveOldMemories cfg encode nowMs nowSec ageDays minSal (some s) st).2.2
      = [MigEvent.register s nowSec,
         MigEvent.delete ((eligibleOf cfg nowMs ageDays minSal (some s) st.memories).map
           (fun m => m.id))]
    ∧ lookupAssoc
        ((lookupAssoc (archiveOldMemories cfg encode nowMs nowSec ageDays minSal
          (some s) st).1.archiveIndex s).getD []) (toString nowSec)
        = some ⟨cfg.archiveDir ++ ("user_" ++ s ++ "_" ++ toString nowSec) ++ ".mp4",
                cfg.archiveDir ++ ("user_" ++ s ++ "_" ++ toString nowSec) ++ ".json", nowSec⟩
    ∧ (archiveOldMemories cfg encode nowMs nowSec ageDays minSal (some s) st).1.memories
      = st.memories.filter (fun m =>
          !(((eligibleOf cfg nowMs ageDays minSal (some s) st.memories).map
            (fun m => m.id)).contains m.id)) := by
  have hne : (eligibleOf cfg nowMs ageDays minSal (some s) st.memories).isEmpty = false := by
    rcases h : (eligibleOf cfg nowMs ageDays minSal (some s) st.memories).isEmpty with _ | _
    · rfl
    · exact absurd (List.isEmpty_iff.mp h) helig
  have hbeq : (s == "") = false := by
    simpa using hs
  simp only [archiveOldMemories, hne, henc, Bool.false_eq_true, if_false, hbeq,
    ownerName]
  refine ⟨by trivial, ?_, by trivial⟩
  rw [lookupAssoc_setAssoc_self]
  simp [lookupAssoc_setAssoc_self]

/-- Witness for the amended C2, at the concrete one-record owned store. -/
theorem c2_register_before_delete_with_owner_witness :
    (("u" : String) ≠ ""
      ∧ eligibleOf demoCfg 1000 (some 0) (some (mkRat 1 2)) (some "u") demoSt.memories ≠ []
      ∧ encodeOk50 ((eligibleOf demoCfg 1000 (some 0) (some (mkRat 1 2)) (some "u")
          demoSt.memories).map (fun m => m.content)) = .ok 50)
    ∧ (archiveOldMemories demoCfg encodeOk50 1000 99 (some 0) (some (mkRat 1 2))
        (some "u") demoSt).2.2
      = [MigEvent.register "u" 99, MigEvent.delete [1]] :=
  ⟨⟨by decide, by decide, by rfl⟩, by
    have h := (c2_register_before_delete_with_owner demoCfg encodeOk50 1000 99 (some 0)
      (some (mkRat 1 2)) "u" demoSt 50 (by decide) (by decide) (by rfl)).1
    rw [h]
    decide⟩

/-- C4: the §8 scenario.  Starting from an empty store, after adding five
records with salience 0.8, 0.3, 0.7, 0.2, 0.9, a migration with
`min_salience=0.5` and a zero effective age threshold (the system is
configured with `archive_threshold_days=0` as in the repository's own
`test_complete.py`) archives exactly the two records scored 0.3 and 0.2,
returns `active_remaining = 3`, and a subsequent `get_stats` for that
owner reports `archive_count = 1`. -/
theorem c4_five_record_scenario :
    (scenarioRun.1.memories.map (fun m => m.id)) = [1, 3, 5]
    ∧ (scenarioRun.1.memories.map (fun m => m.salience))
        = [mkRat 8 10, mkRat 7 10, mkRat 9 10]
    ∧ scenarioRun.2.1.archivedCount = 2
    ∧ scenarioRun.2.1.activeRemaining = 3
    ∧ (getStats (fun _ => none) "remember_active.db" scenarioRun.1 (some "u")).archiveCount = 1
    ∧ scenarioRun.2.2 = [MigEvent.register "u" 77, MigEvent.delete [4, 2]] := by
  refine ⟨by decide, by decide, by decide, by decide, by decide, by decide⟩

/-- C7 counterexample: in the state the MCP servers construct the
scheduler in (`enabled=False`, loop stopped — server.py line 49), a
`run_now` call does not invoke the migrator at all and leaves the run
counters untouched, because `_run_archival` returns early when `enabled`
is false (scheduler.py lines 83-84): `run_now` is not unconditional on
loop state. -/
theorem c7_counterexample_run_now_disabled_noop :
    runNow ⟨false, false, none, 0⟩ 5 (.ok ⟨3, 0, 0, 1⟩)
      = (⟨false, false, none, 0⟩, false) := by decide

/-- C7 amended: whenever the scheduler's `enabled` flag is set, `run_now`
invokes the migrator immediately regardless of the `running` flag, runs
exactly the code the background loop runs, and on success updates the same
run-history counters (last-run timestamp and lifetime archived count);
with `enabled` unset it returns without invoking. -/
theorem c7_run_now_when_enabled
    (s : SchedState) (nowMs : Int) (outcome : Except String ArchiveStats)
    (h : s.enabled = true) :
    (runNow s nowMs outcome).2 = true
    ∧ (∀ b, runNow { s with running := b } nowMs outcome
        = ({ (runNow s nowMs outcome).1 with running := b }, (runNow s nowMs outcome).2))
    ∧ runNow s nowMs outcome = loopArchival s nowMs outcome
    ∧ (∀ stats, outcome = .ok stats →
        (runNow s nowMs outcome).1.lastRun = some nowMs
        ∧ (runNow s nowMs outcome).1.totalArchived = s.totalArchived + stats.archivedCount) := by
  rcases s with ⟨e, r, lr, ta⟩
  cases h
  refine ⟨?_, ?_, rfl, ?_⟩
  · cases outcome <;> simp [runNow, runArchivalStep]
  · intro b
    cases outcome <;> simp [runNow, runArchivalStep]
  · rintro stats rfl
    simp [runNow, runArchivalStep]

/-- Witness for the amended C7: an enabled scheduler whose loop is
stopped. -/
theorem c7_run_now_when_enabled_witness :
    (SchedState.enabled ⟨true, false, none, 2⟩ = true)
    ∧ (runNow ⟨true, false, none, 2⟩ 9 (.ok ⟨4, 1, 2, 1⟩)).2 = true :=
  ⟨by decide,
   (c7_run_now_when_enabled ⟨true, false, none, 2⟩ 9 (.ok ⟨4, 1, 2, 1⟩) (by decide)).1⟩

/-- C8 counterexample: with an empty registry (so the referenced
segment/owner combination is certainly absent), recall still inserts a new
active record and no `NotFound` error is surfaced — the source function
performs no registry lookup at all (system.py lines 392-416). -/
theorem c8_counterexample_recall_inserts_when_absent :
    recallFromArchive [] "archives/user_u_5.mp4" "hello" (some "u")
        = RecallOutcome.inserted "hello" (some "u") "archives/user_u_5.mp4"
    ∧ recallFromArchive [] "archives/user_u_5.mp4" "hello" (some "u")
        ≠ RecallOutcome.notFound := by
  refine ⟨rfl, by decide⟩

/-- C8 amended: for every registry and every segment reference, recall
forward-inserts the given content as a new active record carrying the
`recalled_from` provenance, never surfaces `NotFound`, and its outcome does
not depend on the registry contents. -/
theorem c8_recall_always_inserts
    (idx idx2 : ArchiveIndex) (f c : String) (u : Option String) :
    recallFromArchive idx f c u = RecallOutcome.inserted c u f
    ∧ recallFromArchive idx f c u ≠ RecallOutcome.notFound
    ∧ recallFromArchive idx f c u = recallFromArchive idx2 f c u := by
  refine ⟨rfl, by simp [recallFromArchive], rfl⟩

/-- C9: the startup registry rebuild is not total.  A stem that fails the
`user_` test or has fewer than three parts is skipped, but a stem such as
`user_backup_old` passes both guards and then evaluates
`int("old")`, which raises `ValueError` and aborts the whole scan
(system.py line 99) — with such a file present the remaining files are
not indexed. -/
theorem c9_startup_scan_error_on_nonnumeric_stem :
    loadArchiveIndex ["user_backup_old".data] = .error "invalid literal for int: old"
    ∧ loadArchiveIndex ["stray".data, "user_a_5".data]
        = .ok [("a", [("5", ⟨"user_a_5.mp4", "user_a_5.json", 5⟩)])]
    ∧ loadArchiveIndex ["user_backup_old".data, "user_a_5".data]
        = .error "invalid literal for int: old" := by
  refine ⟨rfl, rfl, rfl⟩

/-- C10: passing `age_days = 0` or `min_salience = 0.0` to
`archive_old_memories` makes the call behave exactly as if the parameter
had been omitted (the system default is used, system.py lines 251-252),
and the falsy-or coalescing can only produce a zero effective threshold
when the configured default itself is zero — a caller cannot request a
zero threshold. -/
theorem c10_zero_thresholds_coalesce_to_defaults :
    (∀ (cfg : Config) (encode : List String → Except String Nat)
       (nowMs nowSec : Int) (u : Option String) (st : SysState),
       archiveOldMemories cfg encode nowMs nowSec (some 0) (some 0) u st
         = archiveOldMemories cfg encode nowMs nowSec none none u st)
    ∧ (∀ (x : Option Int) (d : Int), coalesceInt x d = 0 → d = 0)
    ∧ (∀ (x : Option ℚ) (d : ℚ), coalesceRat x d = 0 → d = 0) := by
  refine ⟨?_, ?_, ?_⟩
  · intro cfg encode nowMs nowSec u st
    simp [archiveOldMemories, eligibleOf, coalesceInt, coalesceRat]
  · rintro (_ | v) d h
    · exact h
    · simp only [coalesceInt] at h
      split at h
      · exact h
      · exact absurd h (by assumption)
  · rintro (_ | v) d h
    · exact h
    · simp only [coalesceRat] at h
      split at h
      · exact h
      · exact absurd h (by assumption)

/-- Witness for C10: concrete zero arguments and a concrete coalescing. -/
theorem c10_zero_thresholds_coalesce_to_defaults_witness :
    (archiveOldMemories demoCfg encodeOk50 0 0 (some 0) (some 0) none ⟨[], []⟩
        = archiveOldMemories demoCfg encodeOk50 0 0 none none none ⟨[], []⟩)
    ∧ ((0 : Int) = 0) :=
  ⟨c10_zero_thresholds_coalesce_to_defaults.1 demoCfg encodeOk50 0 0 none ⟨[], []⟩,
   c10_zero_thresholds_coalesce_to_defaults.2.1 (some 0) 0 (by decide)⟩

/-- C5 counterexample: nothing in the code serializes migrations.  In the
interleaving where both calls run their eligibility SELECT before either
DELETE commits — realizable because `archive_old_memories` awaits between
the SELECT and the DELETE and holds no lock — the single eligible record
of `demoWorld` is encoded into two distinct archive segments: with
concurrent invocations a migrated id does not appear in exactly one
segment. -/
theorem c5_counterexample_interleaved_double_migration :
    segmentsContaining (migRun [true, false, true, false] demoWorld) 1 = 2 := by decide

/-- C5 amended: the code contains no lock, so mutual exclusion of
migrations is not enforced (see the counterexample); when the two
`archive-now` calls happen to run to completion one after the other, each
record id ends up in at most one archive segment, because the second
call's SELECT only sees records that survived the first call's DELETE. -/
theorem c5_sequential_no_double_migration
    (w : World) (hseg : w.segments = [])
    (hA : w.taskA.phase = TaskPhase.ready) (hB : w.taskB.phase = TaskPhase.ready)
    (i : Nat) :
    segmentsContaining (migRun [true, true, false, false] w) i ≤ 1 := by
  rcases w with ⟨cfg, mems, segs, ⟨pA, uA, nmA, nsA, aA, sA⟩, ⟨pB, uB, nmB, nsB, aB, sB⟩⟩
  simp only at hseg hA hB
  cases hseg
  cases hA
  cases hB
  simp only [migRun, List.foldl]
  by_cases h1 : (eligibleOf cfg nmA aA sA uA mems).isEmpty
  · by_cases h2 : (eligibleOf cfg nmB aB sB uB mems).isEmpty
    · simp [migStep, setTask, h1, h2, segmentsContaining]
    · simp [migStep, setTask, h1, h2, segmentsContaining]
      by_cases hd : i ∈ List.map (fun m => m.id) (eligibleOf cfg nmB aB sB uB mems) <;>
        simp [List.filter, hd]
  · by_cases h2 : (eligibleOf cfg nmB aB sB uB
        (mems.filter (fun m => !(((eligibleOf cfg nmA aA sA uA mems).map (fun m => m.id)).contains m.id)))).isEmpty
    · simp [migStep, setTask, h1, segmentsContaining]
      simp at h2
      simp [h2]
      by_cases hd : i ∈ List.map (fun m => m.id) (eligibleOf cfg nmA aA sA uA mems) <;>
        simp [List.filter, hd]
    · simp [migStep, setTask, h1, segmentsContaining]
      simp at h2
      simp [h2]
      set E1 := eligibleOf cfg nmA aA sA uA mems with hE1
      set E2 := eligibleOf cfg nmB aB sB uB
        (mems.filter (fun m => !decide (∃ a ∈ E1, a.id = m.id))) with hE2
      have hdisj : i ∈ List.map (fun m => m.id) E1 → i ∉ List.map (fun m => m.id) E2 := by
        intro hi1 hi2
        rcases List.mem_map.mp hi2 with ⟨m, hm, rfl⟩
        have hm1 := (mem_eligibleOf hm).1
        have hflt := (List.mem_filter.mp hm1).2
        rcases List.mem_map.mp hi1 with ⟨a, ha, haid⟩
        simp at hflt
        exact hflt a ha haid
      by_cases hc1 : i ∈ List.map (fun m => m.id) E1
      · by_cases hc2 : i ∈ List.map (fun m => m.id) E2
        · exact absurd hc2 (hdisj hc1)
        · simp [List.filter, hc1, hc2]
      · by_cases hc2 : i ∈ List.map (fun m => m.id) E2 <;> simp [List.filter, hc1, hc2]

/-- Witness for the amended C5 at the concrete world. -/
theorem c5_sequential_no_double_migration_witness :
    (demoWorld.segments = [] ∧ demoWorld.taskA.phase = TaskPhase.ready
      ∧ demoWorld.taskB.phase = TaskPhase.ready)
    ∧ segmentsContaining (migRun [true, true, false, false] demoWorld) 1 ≤ 1 :=
  ⟨⟨by decide, by decide, by decide⟩,
   c5_sequential_no_double_migration demoWorld (by decide) (by decide) (by decide) 1⟩

/-- C6: for every hybrid query the returned list is the concatenation of
the active-tier results followed by the archive-tier results, sorted
descending by unified score with a stable sort — the output equals the
index-stable sort (original position breaks ties) truncated to `k`, it is
pairwise sorted by score, has length `min k n`, and among equal scores no
archive-tier result precedes an active-tier result. -/
theorem c6_hybrid_query_stable_sorted_truncated
    (activeResults : List ActiveResult)
    (retrieve : String → String → String → Nat → Except String (List (String × ℚ)))
    (hashStr : String → Int) (idx : ArchiveIndex) (q : String) (k : Nat)
    (userId : Option String) (includeArchive : Bool) :
    queryHybrid activeResults retrieve hashStr idx q k userId includeArchive
      = (((mergedResults activeResults retrieve hashStr idx q k userId includeArchive).enum.mergeSort
            (List.enumLE scoreDescLE)).map (fun p => p.2)).take k
    ∧ (queryHybrid activeResults retrieve hashStr idx q k userId includeArchive).Pairwise
        (fun a b => b.score ≤ a.score)
    ∧ (queryHybrid activeResults retrieve hashStr idx q k userId includeArchive).length
        = min k (mergedResults activeResults retrieve hashStr idx q k userId includeArchive).length
    ∧ (queryHybrid activeResults retrieve hashStr idx q k userId includeArchive).Pairwise
        (fun a b => a.score = b.score →
          (a.location = MemoryLocation.archive → b.location = MemoryLocation.archive)
          ∧ (b.location = MemoryLocation.active → a.location = MemoryLocation.active)) := by
  have h1 : queryHybrid activeResults retrieve hashStr idx q k userId includeArchive
      = (((mergedResults activeResults retrieve hashStr idx q k userId includeArchive).enum.mergeSort
            (List.enumLE scoreDescLE)).map (fun p => p.2)).take k := by
    unfold queryHybrid
    rw [List.mergeSort_enum]
  refine ⟨h1, ?_, ?_, ?_⟩
  · show (((mergedResults activeResults retrieve hashStr idx q k userId includeArchive).mergeSort
        scoreDescLE).take k).Pairwise (fun a b => b.score ≤ a.score)
    have hs := List.sorted_mergeSort scoreDescLE_trans scoreDescLE_total
      (mergedResults activeResults retrieve hashStr idx q k userId includeArchive)
    have hp := List.Pairwise.sublist (List.take_sublist k _) hs
    exact hp.imp (fun h => by simpa [scoreDescLE] using h)
  · show (((mergedResults activeResults retrieve hashStr idx q k userId includeArchive).mergeSort
        scoreDescLE).take k).length = _
    rw [List.length_take, List.length_mergeSort]
  · rw [h1]
    set merged := mergedResults activeResults retrieve hashStr idx q k userId includeArchive
      with hmerged
    set eout := merged.enum.mergeSort (List.enumLE scoreDescLE) with heout
    have hpair : eout.Pairwise (fun p q => List.enumLE scoreDescLE p q = true) :=
      List.sorted_mergeSort enumLE_scoreDesc_trans enumLE_scoreDesc_total _
    have hperm : eout.Perm merged.enum := List.mergeSort_perm _ _
    have hnodup : (eout.map Prod.fst).Nodup := by
      have h0 : (merged.enum.map Prod.fst).Nodup := by
        rw [List.enum_map_fst]
        exact List.nodup_range _
      exact ((hperm.map Prod.fst).nodup_iff).mpr h0
    have hfst : eout.Pairwise (fun p q => p.1 ≠ q.1) :=
      (List.pairwise_map).mp hnodup
    have hmem : ∀ p ∈ eout, merged[p.1]? = some p.2 := by
      intro p hp
      exact List.mem_enum_iff_getElem?.mp (hperm.subset hp)
    have hloc : ∀ p ∈ eout,
        (p.1 < (activeResults.map toHybridActive).length → p.2.location = MemoryLocation.active)
        ∧ ((activeResults.map toHybridActive).length ≤ p.1 → p.2.location = MemoryLocation.archive) := by
      intro p hp
      have h := hmem p hp
      rw [hmerged] at h
      unfold mergedResults at h
      constructor
      · intro hlt
        rw [List.getElem?_append, if_pos hlt] at h
        exact location_of_mem_activePart (List.getElem?_mem h)
      · intro hge
        rw [List.getElem?_append, if_neg (not_lt.mpr hge)] at h
        exact location_of_mem_archivePartOf (List.getElem?_mem h)
    have key : eout.Pairwise (fun p q => p.2.score = q.2.score →
        (p.2.location = MemoryLocation.archive → q.2.location = MemoryLocation.archive)
        ∧ (q.2.location = MemoryLocation.active → p.2.location = MemoryLocation.active)) := by
      refine List.Pairwise.imp_of_mem ?_ (hpair.and hfst)
      intro p q hp hq hpq hscore
      rcases hpq with ⟨hle, hne⟩
      have hij : p.1 < q.1 := by
        rcases (enumLE_scoreDesc_iff p q).mp hle with h | ⟨heq, hij⟩
        · exact absurd hscore (ne_of_gt h)
        · exact lt_of_le_of_ne hij hne
      constructor
      · intro hparch
        have hge : (activeResults.map toHybridActive).length ≤ p.1 := by
          by_contra hlt
          push_neg at hlt
          have hact := (hloc p hp).1 hlt
          rw [hact] at hparch
          exact MemoryLocation.noConfusion hparch
        exact (hloc q hq).2 (le_trans hge (le_of_lt hij))
      · intro hqact
        have hlt : q.1 < (activeResults.map toHybridActive).length := by
          by_contra hge
          push_neg at hge
          have harch := (hloc q hq).2 hge
          rw [harch] at hqact
          exact MemoryLocation.noConfusion hqact
        exact (hloc p hp).1 (lt_trans hij hlt)
    have hmap : (eout.map (fun p => p.2)).Pairwise (fun a b => a.score = b.score →
        (a.location = MemoryLocation.archive → b.location = MemoryLocation.archive)
        ∧ (b.location = MemoryLocation.active → a.location = MemoryLocation.active)) := by
      rw [List.pairwise_map]
      exact key
    exact List.Pairwise.sublist (List.take_sublist _ _) hmap

end Remember
